import Mathlib

/-!
# Verification of `recortar_spritesheet.py`

Shallow embedding of the spritesheet frame-realignment script.  An image is
modelled as its pixel dimensions, its channel mode, and a total pixel
function (only the restriction to `[0, width) × [0, height)` is meaningful).
The PIL operations used by the script (`Image.new`, `Image.crop`,
`Image.paste`) are embedded with their documented semantics: `crop` pads
out-of-bounds regions with zero (transparent) pixels, `paste` clips the
pasted region to the destination bounds and fully overwrites pixels
(including alpha) in the written region.
-/

/-- An RGBA pixel value; `a = 0` means fully transparent. -/
structure RGBA where
  r : Nat
  g : Nat
  b : Nat
  a : Nat
deriving DecidableEq

/-- The fully transparent pixel `(0, 0, 0, 0)` used by the script. -/
def transparent : RGBA := ⟨0, 0, 0, 0⟩

/-- A raster image: dimensions, channel mode, and pixel contents. -/
structure Image where
  width : Nat
  height : Nat
  mode : String
  pixel : Nat → Nat → RGBA

/-- `Image.new(mode, (w, h), color)`: a `w × h` canvas filled with `color`. -/
def Image.new (mode : String) (w h : Nat) (color : RGBA) : Image :=
  ⟨w, h, mode, fun _ _ => color⟩

/-- `img.crop((l, t, r, b))`: the rectangular region `[l, r) × [t, b)` as a
new image of size `(r - l) × (b - t)`; regions outside the source image are
filled with zero (transparent) pixels, and the mode is preserved. -/
def Image.crop (img : Image) (l t r b : Nat) : Image :=
  ⟨r - l, b - t, img.mode, fun x y =>
    if l + x < img.width ∧ t + y < img.height then img.pixel (l + x) (t + y)
    else transparent⟩

/-- `dst.paste(src, (x0, y0))`: overwrite the region of `dst` covered by
`src` placed at offset `(x0, y0)` (offsets may be negative); the written
region is clipped to the bounds of `dst`, the rest of `dst` is unchanged,
and `dst`'s dimensions and mode are kept. -/
def Image.paste (dst src : Image) (x0 y0 : Int) : Image :=
  ⟨dst.width, dst.height, dst.mode, fun x y =>
    if x < dst.width ∧ y < dst.height ∧
       x0 ≤ (x : Int) ∧ (x : Int) < x0 + src.width ∧
       y0 ≤ (y : Int) ∧ (y : Int) < y0 + src.height then
      src.pixel ((x : Int) - x0).toNat ((y : Int) - y0).toNat
    else dst.pixel x y⟩

/-- Configured input path (`input_path` in the script). -/
def input_path : String := "skeletonAttack-Sheet146x64.png"

/-- Configured output path (`output_path` in the script). -/
def output_path : String := "skeletonAttack-cropped.png"

/-- Configured frame width (`frame_width = 146`). -/
def frame_width : Nat := 146

/-- Configured frame height (`frame_height = 64`). -/
def frame_height : Nat := 64

/-- Configured downward shift (`y_offset = 5`). -/
def y_offset : Int := 5

/-- Body of the nested loop for one grid cell `(row, col)`: crop the frame,
paste it at vertical offset `yoff` into a fresh transparent frame canvas,
and paste that canvas back into the sheet at the cell's position. -/
def processCell (fw fh : Nat) (yoff : Int) (spritesheet sheet : Image)
    (row col : Nat) : Image :=
  let left := col * fw
  let top := row * fh
  let frame := spritesheet.crop left top (left + fw) (top + fh)
  let new_frame := (Image.new "RGBA" fw fh transparent).paste frame 0 yoff
  sheet.paste new_frame (left : Int) (top : Int)

/-- The cells `(row, col)` visited by the nested loop, in row-major order:
`for row in range(rows): for col in range(cols)`. -/
def cellList (rows cols : Nat) : List (Nat × Nat) :=
  (List.range rows).flatMap fun row => (List.range cols).map fun col => (row, col)

/-- Run the per-cell loop body over a given list of cells, starting from the
fresh transparent full-size canvas `new_sheet`. -/
def runCells (fw fh : Nat) (yoff : Int) (spritesheet : Image)
    (cells : List (Nat × Nat)) : Image :=
  cells.foldl (fun sheet rc => processCell fw fh yoff spritesheet sheet rc.1 rc.2)
    (Image.new "RGBA" spritesheet.width spritesheet.height transparent)

/-- The whole transform, parametrised by frame size and offset:
`cols = sheet_width // frame_width`, `rows = sheet_height // frame_height`,
then the row-major nested loop over whole cells. -/
def transform (fw fh : Nat) (yoff : Int) (spritesheet : Image) : Image :=
  runCells fw fh yoff spritesheet
    (cellList (spritesheet.height / fh) (spritesheet.width / fw))

/-- The script's transform at its configured constants. -/
def recortar (spritesheet : Image) : Image :=
  transform frame_width frame_height y_offset spritesheet

/-- Failure modes of a run, per the script's failure semantics. -/
inductive RunError where
  | unreadable
  | decodeFailure
  | processingFailure
deriving DecidableEq

/-- A run of the script: `load` models `Image.open` (which may fail with a
file-access or decode error), `proc` models the grid-processing phase (which
may fail at runtime); on success the script's sole externally visible effect
is the final `new_sheet.save(output_path)`, returned as the pair of the path
written and the image written there.  A failure anywhere propagates and no
write is produced. -/
def scriptRun (load : Except RunError Image)
    (proc : Image → Except RunError Image) :
    Except RunError (String × Image) :=
  match load with
  | .error e => .error e
  | .ok spritesheet =>
    match proc spritesheet with
    | .error e => .error e
    | .ok new_sheet => .ok (output_path, new_sheet)

/-- The script's actual processing phase is the pure `recortar`. -/
def script (load : Except RunError Image) : Except RunError (String × Image) :=
  scriptRun load (fun spritesheet => .ok (recortar spritesheet))

/-- Apply a run's effect to a file system (a map from paths to file
contents): a successful run writes the output image at the output path; a
failed run changes nothing. -/
def applyRun (fs : String → Option Image)
    (r : Except RunError (String × Image)) : String → Option Image :=
  match r with
  | .error _ => fs
  | .ok (p, img) => fun q => if q = p then some img else fs q

/-! ## Access lemmas for the embedded PIL operations -/

lemma paste_pixel_pos (dst src : Image) (x0 y0 : Int) (x y : Nat)
    (h1 : x < dst.width) (h2 : y < dst.height) (h3 : x0 ≤ (x : Int))
    (h4 : (x : Int) < x0 + src.width) (h5 : y0 ≤ (y : Int))
    (h6 : (y : Int) < y0 + src.height) :
    (dst.paste src x0 y0).pixel x y =
      src.pixel ((x : Int) - x0).toNat ((y : Int) - y0).toNat := by
  simp only [Image.paste]
  rw [if_pos ⟨h1, h2, h3, h4, h5, h6⟩]

lemma paste_pixel_neg (dst src : Image) (x0 y0 : Int) (x y : Nat)
    (h : ¬(x < dst.width ∧ y < dst.height ∧
          x0 ≤ (x : Int) ∧ (x : Int) < x0 + src.width ∧
          y0 ≤ (y : Int) ∧ (y : Int) < y0 + src.height)) :
    (dst.paste src x0 y0).pixel x y = dst.pixel x y := by
  simp only [Image.paste]
  rw [if_neg h]

/-! ## Basic structural lemmas -/

lemma runCells_width (fw fh : Nat) (yoff : Int) (src : Image)
    (L : List (Nat × Nat)) : (runCells fw fh yoff src L).width = src.width := by
  unfold runCells
  suffices h : ∀ (sheet : Image),
      (L.foldl (fun sheet rc => processCell fw fh yoff src sheet rc.1 rc.2)
        sheet).width = sheet.width by
    exact h _
  induction L with
  | nil => intro sheet; rfl
  | cons hd tl ih => intro sheet; exact ih _

lemma runCells_height (fw fh : Nat) (yoff : Int) (src : Image)
    (L : List (Nat × Nat)) : (runCells fw fh yoff src L).height = src.height := by
  unfold runCells
  suffices h : ∀ (sheet : Image),
      (L.foldl (fun sheet rc => processCell fw fh yoff src sheet rc.1 rc.2)
        sheet).height = sheet.height by
    exact h _
  induction L with
  | nil => intro sheet; rfl
  | cons hd tl ih => intro sheet; exact ih _

lemma runCells_mode (fw fh : Nat) (yoff : Int) (src : Image)
    (L : List (Nat × Nat)) : (runCells fw fh yoff src L).mode = "RGBA" := by
  unfold runCells
  suffices h : ∀ (sheet : Image),
      (L.foldl (fun sheet rc => processCell fw fh yoff src sheet rc.1 rc.2)
        sheet).mode = sheet.mode by
    exact h _
  induction L with
  | nil => intro sheet; rfl
  | cons hd tl ih => intro sheet; exact ih _

/-! ## Pixel characterisation of the nested loop -/

/-- The pixel value the loop body writes at position `(x, y)` when it
processes the grid cell containing `(x, y)`, i.e. row `y / fh` and column
`x / fw`: if the in-cell row `y % fh` is at least `yoff` and its source row
`y % fh - yoff` lies below `fh`, the cropped frame's pixel there; otherwise
the transparent pixel of the fresh frame canvas. -/
def cellPixel (fw fh : Nat) (yoff : Int) (src : Image) (x y : Nat) : RGBA :=
  if yoff ≤ ((y % fh : Nat) : Int) ∧ ((y % fh : Nat) : Int) < yoff + (fh : Int) then
    (src.crop (x / fw * fw) (y / fh * fh) (x / fw * fw + fw) (y / fh * fh + fh)).pixel
      (x % fw) (((y % fh : Nat) : Int) - yoff).toNat
  else transparent

lemma processCell_pixel_hit (fw fh : Nat) (yoff : Int) (src sheet : Image)
    (x y : Nat) (hx : x < sheet.width) (hy : y < sheet.height)
    (hfw : 0 < fw) (hfh : 0 < fh) :
    (processCell fw fh yoff src sheet (y / fh) (x / fw)).pixel x y =
      cellPixel fw fh yoff src x y := by
  have e1 : x / fw * fw + x % fw = x := Nat.div_add_mod' x fw
  have e2 : x % fw < fw := Nat.mod_lt x hfw
  have e3 : y / fh * fh + y % fh = y := Nat.div_add_mod' y fh
  have e4 : y % fh < fh := Nat.mod_lt y hfh
  simp only [processCell]
  rw [paste_pixel_pos]
  · have ha : ((x : Int) - ((x / fw * fw : Nat) : Int)).toNat = x % fw := by omega
    have hb : ((y : Int) - ((y / fh * fh : Nat) : Int)).toNat = y % fh := by omega
    rw [ha, hb]
    by_cases hc : yoff ≤ ((y % fh : Nat) : Int) ∧ ((y % fh : Nat) : Int) < yoff + (fh : Int)
    · rw [paste_pixel_pos]
      · simp only [cellPixel, if_pos hc, Int.sub_zero, Int.toNat_natCast]
      · show x % fw < fw
        omega
      · show y % fh < fh
        omega
      · omega
      · show ((x % fw : Nat) : Int) < 0 + ((x / fw * fw + fw - x / fw * fw : Nat) : Int)
        omega
      · exact hc.1
      · show ((y % fh : Nat) : Int) < yoff + ((y / fh * fh + fh - y / fh * fh : Nat) : Int)
        omega
    · rw [paste_pixel_neg]
      · simp only [cellPixel, if_neg hc, Image.new]
      · intro hcond
        exact hc ⟨hcond.2.2.2.2.1, by
          have := hcond.2.2.2.2.2
          simp only [Image.crop] at this
          omega⟩
  · exact hx
  · exact hy
  · omega
  · show (x : Int) < ((x / fw * fw : Nat) : Int) + ((fw : Nat) : Int)
    omega
  · omega
  · show (y : Int) < ((y / fh * fh : Nat) : Int) + ((fh : Nat) : Int)
    omega

lemma processCell_pixel_miss (fw fh : Nat) (yoff : Int) (src sheet : Image)
    (row col x y : Nat) (h : (row, col) ≠ (y / fh, x / fw)) :
    (processCell fw fh yoff src sheet row col).pixel x y = sheet.pixel x y := by
  simp only [processCell]
  rw [paste_pixel_neg]
  intro hcond
  apply h
  obtain ⟨h1, h2, h3, h4, h5, h6⟩ := hcond
  have hx1 : col * fw ≤ x := by exact_mod_cast h3
  have hx2 : (x : Int) < ((col * fw : Nat) : Int) + ((fw : Nat) : Int) := h4
  have hy1 : row * fh ≤ y := by exact_mod_cast h5
  have hy2 : (y : Int) < ((row * fh : Nat) : Int) + ((fh : Nat) : Int) := h6
  have hcol : x / fw = col :=
    Nat.div_eq_of_lt_le hx1 (by rw [Nat.succ_mul]; omega)
  have hrow : y / fh = row :=
    Nat.div_eq_of_lt_le hy1 (by rw [Nat.succ_mul]; omega)
  rw [hcol, hrow]

lemma mem_cellList (rows cols r c : Nat) :
    (r, c) ∈ cellList rows cols ↔ r < rows ∧ c < cols := by
  simp [cellList]

lemma foldl_cells_pixel (fw fh : Nat) (yoff : Int) (src : Image)
    (hfw : 0 < fw) (hfh : 0 < fh) (x y : Nat) (L : List (Nat × Nat)) :
    ∀ (sheet : Image), x < sheet.width → y < sheet.height →
      (L.foldl (fun sheet rc => processCell fw fh yoff src sheet rc.1 rc.2)
          sheet).pixel x y =
        if (y / fh, x / fw) ∈ L then cellPixel fw fh yoff src x y
        else sheet.pixel x y := by
  induction L with
  | nil =>
    intro sheet hx hy
    simp
  | cons hd tl ih =>
    intro sheet hx hy
    rw [List.foldl_cons,
      ih (processCell fw fh yoff src sheet hd.1 hd.2) hx hy]
    by_cases hm : (y / fh, x / fw) ∈ tl
    · rw [if_pos hm, if_pos (List.mem_cons_of_mem _ hm)]
    · rw [if_neg hm]
      rcases eq_or_ne hd (y / fh, x / fw) with heq | hne
      · rw [if_pos (heq ▸ List.mem_cons_self hd tl), heq]
        exact processCell_pixel_hit fw fh yoff src sheet x y hx hy hfw hfh
      · rw [if_neg (by
          intro hc
          rcases List.mem_cons.mp hc with h | h
          · exact hne h.symm
          · exact hm h)]
        exact processCell_pixel_miss fw fh yoff src sheet hd.1 hd.2 x y hne

lemma runCells_pixel (fw fh : Nat) (yoff : Int) (src : Image)
    (hfw : 0 < fw) (hfh : 0 < fh) (x y : Nat)
    (hx : x < src.width) (hy : y < src.height) (L : List (Nat × Nat)) :
    (runCells fw fh yoff src L).pixel x y =
      if (y / fh, x / fw) ∈ L then cellPixel fw fh yoff src x y
      else transparent := by
  unfold runCells
  rw [foldl_cells_pixel fw fh yoff src hfw hfh x y L
    (Image.new "RGBA" src.width src.height transparent) hx hy]
  rfl

/-- For in-range coordinates, the transform's output pixel is the
corresponding cell's written value when `(x, y)` lies in a whole cell, and
the untouched transparent background otherwise. -/
lemma transform_pixel (fw fh : Nat) (yoff : Int) (src : Image)
    (hfw : 0 < fw) (hfh : 0 < fh) (x y : Nat)
    (hx : x < src.width) (hy : y < src.height) :
    (transform fw fh yoff src).pixel x y =
      if y / fh < src.height / fh ∧ x / fw < src.width / fw then
        cellPixel fw fh yoff src x y
      else transparent := by
  unfold transform
  rw [runCells_pixel fw fh yoff src hfw hfh x y hx hy]
  simp [mem_cellList]

/-- Inside a whole grid cell `(row, col)`, the output pixel at in-cell
position `(x, y)` is the source pixel `yoff` rows above when that source
row survives the clip to `[0, fh)`, and transparent otherwise. -/
lemma transform_pixel_in_cell (fw fh : Nat) (yoff : Int) (src : Image)
    (hfw : 0 < fw) (hfh : 0 < fh) (row col x y : Nat)
    (hrow : row < src.height / fh) (hcol : col < src.width / fw)
    (hx : x < fw) (hy : y < fh) :
    (transform fw fh yoff src).pixel (col * fw + x) (row * fh + y) =
      if yoff ≤ (y : Int) ∧ (y : Int) < yoff + (fh : Int) then
        src.pixel (col * fw + x) (row * fh + ((y : Int) - yoff).toNat)
      else transparent := by
  have hwX : (col + 1) * fw ≤ src.width / fw * fw :=
    Nat.mul_le_mul_right fw hcol
  have hwX2 : src.width / fw * fw ≤ src.width := Nat.div_mul_le_self _ _
  have hX : col * fw + x < src.width := by
    rw [Nat.add_mul] at hwX
    omega
  have hwY : (row + 1) * fh ≤ src.height / fh * fh :=
    Nat.mul_le_mul_right fh hrow
  have hwY2 : src.height / fh * fh ≤ src.height := Nat.div_mul_le_self _ _
  have hY : row * fh + y < src.height := by
    rw [Nat.add_mul] at hwY
    omega
  have d1 : (row * fh + y) / fh = row :=
    Nat.div_eq_of_lt_le (by omega) (by rw [Nat.succ_mul]; omega)
  have d2 : (col * fw + x) / fw = col :=
    Nat.div_eq_of_lt_le (by omega) (by rw [Nat.succ_mul]; omega)
  have m1 : (row * fh + y) % fh = y := by
    have e := Nat.div_add_mod' (row * fh + y) fh
    rw [d1] at e
    omega
  have m2 : (col * fw + x) % fw = x := by
    have e := Nat.div_add_mod' (col * fw + x) fw
    rw [d2] at e
    omega
  rw [transform_pixel fw fh yoff src hfw hfh _ _ hX hY]
  simp only [cellPixel, Image.crop]
  rw [d1, d2, m1, m2]
  rw [if_pos ⟨hrow, hcol⟩]
  by_cases hcond : yoff ≤ ((y : Nat) : Int) ∧ ((y : Nat) : Int) < yoff + (fh : Int)
  · rw [if_pos hcond, if_pos hcond]
    have hcY : row * fh + ((y : Int) - yoff).toNat < src.height := by
      have h3 : ((y : Int) - yoff).toNat < fh := by omega
      rw [Nat.add_mul] at hwY
      omega
    rw [if_pos ⟨hX, hcY⟩]
  · rw [if_neg hcond, if_neg hcond]

/-! ## Concrete test images -/

/-- A concrete 292 × 128 test sheet (a 2 × 2 grid of 146 × 64 frames). -/
def testSheet : Image := ⟨292, 128, "RGBA", fun x y => ⟨x, y, 0, 255⟩⟩

/-- A concrete 146 × 64 test sheet whose alpha channel encodes the row. -/
def rowCoded : Image := ⟨146, 64, "RGBA", fun _ y => ⟨0, 0, 0, y⟩⟩

/-- A concrete 150 × 70 opaque sheet with remainder strips on both edges. -/
def oddSheet : Image := ⟨150, 70, "RGBA", fun x y => ⟨x, y, 9, 255⟩⟩

/-- A concrete 10 × 10 opaque image, smaller than one frame. -/
def tinySheet : Image := ⟨10, 10, "L", fun _ _ => ⟨7, 7, 7, 255⟩⟩

/-- A concrete 4 × 6 sheet used for the parametric clipping claim. -/
def smallSheet : Image := ⟨4, 6, "P", fun x y => ⟨x, y, 1, 2⟩⟩

/-- A concrete 2 × 1 sheet used for the processing-order claim. -/
def pairSheet : Image := ⟨2, 1, "RGBA", fun x y => ⟨x, y, 2, 3⟩⟩

/-! ## The claims -/

/-- C1: for every whole grid cell `(row, col)` and in-cell coordinate
`(x, y)` with `x < frame_width` and `y_offset ≤ y < frame_height` such that
`y - y_offset < frame_height`, the output pixel at
`(col*frame_width + x, row*frame_height + y)` equals the source pixel at
`(col*frame_width + x, row*frame_height + (y - y_offset))`. -/
theorem frame_content_shifted_down (src : Image) (row col x y : Nat)
    (hrow : row < src.height / frame_height)
    (hcol : col < src.width / frame_width)
    (hx : x < frame_width)
    (hy1 : y_offset.toNat ≤ y) (hy2 : y < frame_height)
    (hy3 : y - y_offset.toNat < frame_height) :
    (recortar src).pixel (col * frame_width + x) (row * frame_height + y) =
      src.pixel (col * frame_width + x)
        (row * frame_height + (y - y_offset.toNat)) := by
  unfold recortar
  rw [transform_pixel_in_cell frame_width frame_height y_offset src
    (by decide) (by decide) row col x y hrow hcol hx hy2]
  have hcond : y_offset ≤ (y : Int) ∧ (y : Int) < y_offset + (frame_height : Int) := by
    simp only [y_offset, frame_height] at hy1 hy2 ⊢
    omega
  rw [if_pos hcond]
  congr 1
  simp only [y_offset]
  omega

theorem frame_content_shifted_down_witness :
    (1 < testSheet.height / frame_height ∧ 1 < testSheet.width / frame_width ∧
      3 < frame_width ∧ y_offset.toNat ≤ 10 ∧ 10 < frame_height ∧
      10 - y_offset.toNat < frame_height) ∧
    (recortar testSheet).pixel (1 * frame_width + 3) (1 * frame_height + 10) =
      testSheet.pixel (1 * frame_width + 3)
        (1 * frame_height + (10 - y_offset.toNat)) :=
  ⟨by decide, frame_content_shifted_down testSheet 1 1 3 10 (by decide)
    (by decide) (by decide) (by decide) (by decide) (by decide)⟩

/-- C2: for every input image, the output image's width and height equal
the input image's width and height exactly. -/
theorem output_dims_eq_input_dims (src : Image) :
    (recortar src).width = src.width ∧ (recortar src).height = src.height :=
  ⟨runCells_width _ _ _ _ _, runCells_height _ _ _ _ _⟩

/-- C3: with `y_offset > 0`, every output pixel of a whole grid cell lying
in an in-cell row `y < y_offset` is fully transparent (alpha = 0). -/
theorem top_offset_rows_transparent (src : Image) (row col x y : Nat)
    (hpos : 0 < y_offset)
    (hrow : row < src.height / frame_height)
    (hcol : col < src.width / frame_width)
    (hx : x < frame_width) (hy : y < y_offset.toNat) :
    ((recortar src).pixel (col * frame_width + x) (row * frame_height + y)).a
      = 0 := by
  unfold recortar
  have hy2 : y < frame_height := by
    simp only [y_offset] at hy
    simp only [frame_height]
    omega
  rw [transform_pixel_in_cell frame_width frame_height y_offset src
    (by decide) (by decide) row col x y hrow hcol hx hy2]
  have hneg : ¬(y_offset ≤ (y : Int) ∧
      (y : Int) < y_offset + (frame_height : Int)) := by
    simp only [y_offset] at hy ⊢
    omega
  rw [if_neg hneg]
  rfl

theorem top_offset_rows_transparent_witness :
    (0 < y_offset ∧ 0 < testSheet.height / frame_height ∧
      1 < testSheet.width / frame_width ∧ 2 < frame_width ∧
      3 < y_offset.toNat) ∧
    ((recortar testSheet).pixel (1 * frame_width + 2)
      (0 * frame_height + 3)).a = 0 :=
  ⟨by decide, top_offset_rows_transparent testSheet 0 1 2 3 (by decide)
    (by decide) (by decide) (by decide) (by decide)⟩

/-- C4: `cols = sheet_width / frame_width` and
`rows = sheet_height / frame_height` truncate, so only whole frames are
processed; every output pixel in the right or bottom remainder strip
(outside `[0, cols*frame_width) × [0, rows*frame_height)`) is fully
transparent (alpha = 0). -/
theorem remainder_strip_transparent (src : Image) (x y : Nat)
    (hx : x < src.width) (hy : y < src.height)
    (h : src.width / frame_width * frame_width ≤ x ∨
         src.height / frame_height * frame_height ≤ y) :
    ((recortar src).pixel x y).a = 0 := by
  unfold recortar
  rw [transform_pixel frame_width frame_height y_offset src
    (by decide) (by decide) x y hx hy]
  rw [if_neg (by
    simp only [frame_width, frame_height] at h ⊢
    omega)]
  rfl

theorem remainder_strip_transparent_witness :
    (147 < oddSheet.width ∧ 3 < oddSheet.height ∧
      (oddSheet.width / frame_width * frame_width ≤ 147 ∨
       oddSheet.height / frame_height * frame_height ≤ 3)) ∧
    ((recortar oddSheet).pixel 147 3).a = 0 :=
  ⟨by decide, remainder_strip_transparent oddSheet 147 3 (by decide)
    (by decide) (by decide)⟩

/-- C5: for every integer offset `yoff` (negative values and values at
least the frame height included) clipping is symmetric and there is no
wrap-around: an in-cell output row `y` shows the source row `y - yoff`
exactly when that destination index survives in `[0, fh)`, and every
in-cell output row not written by a surviving source row is transparent. -/
theorem clipping_symmetric_no_wrap (fw fh : Nat) (yoff : Int) (src : Image)
    (hfw : 0 < fw) (hfh : 0 < fh) (row col x y : Nat)
    (hrow : row < src.height / fh) (hcol : col < src.width / fw)
    (hx : x < fw) (hy : y < fh) :
    (transform fw fh yoff src).pixel (col * fw + x) (row * fh + y) =
      if yoff ≤ (y : Int) ∧ (y : Int) < yoff + (fh : Int) then
        src.pixel (col * fw + x) (row * fh + ((y : Int) - yoff).toNat)
      else transparent :=
  transform_pixel_in_cell fw fh yoff src hfw hfh row col x y hrow hcol hx hy

theorem clipping_symmetric_no_wrap_witness :
    ((0 : Nat) < 2 ∧ (0 : Nat) < 3 ∧ 1 < smallSheet.height / 3 ∧
      1 < smallSheet.width / 2 ∧ (1 : Nat) < 2 ∧ (1 : Nat) < 3) ∧
    (transform 2 3 (-1) smallSheet).pixel (1 * 2 + 1) (1 * 3 + 1) =
      RGBA.mk 3 5 1 2 :=
  ⟨by decide,
    (clipping_symmetric_no_wrap 2 3 (-1) smallSheet (by decide) (by decide)
      1 1 1 1 (by decide) (by decide) (by decide) (by decide)).trans (by decide)⟩

/-- C6: the transform is not idempotent: on a concrete sheet with
non-transparent content, re-running it on its own output changes a pixel
(content is shifted down by `y_offset` again), so the output is not a
fixed point. -/
theorem transform_not_idempotent :
    (recortar (recortar rowCoded)).pixel 0 15 ≠
      (recortar rowCoded).pixel 0 15 := by
  decide

/-- C7: the output is independent of the order in which the grid cells are
processed: running the loop body over any permutation of the row-major cell
list yields a sheet with the same dimensions and the same pixel at every
in-range position. -/
theorem cell_order_irrelevant (fw fh : Nat) (yoff : Int) (src : Image)
    (hfw : 0 < fw) (hfh : 0 < fh) (L : List (Nat × Nat))
    (hperm : L.Perm (cellList (src.height / fh) (src.width / fw)))
    (x y : Nat) (hx : x < src.width) (hy : y < src.height) :
    (runCells fw fh yoff src L).width = (transform fw fh yoff src).width ∧
    (runCells fw fh yoff src L).height = (transform fw fh yoff src).height ∧
    (runCells fw fh yoff src L).pixel x y =
      (transform fw fh yoff src).pixel x y := by
  refine ⟨?_, ?_, ?_⟩
  · unfold transform
    rw [runCells_width, runCells_width]
  · unfold transform
    rw [runCells_height, runCells_height]
  · unfold transform
    rw [runCells_pixel fw fh yoff src hfw hfh x y hx hy L,
      runCells_pixel fw fh yoff src hfw hfh x y hx hy
        (cellList (src.height / fh) (src.width / fw))]
    exact if_congr hperm.mem_iff rfl rfl

theorem cell_order_irrelevant_witness :
    ((0 : Nat) < 1 ∧ (0 : Nat) < 1 ∧
      List.Perm [((0 : Nat), (1 : Nat)), (0, 0)]
        (cellList (pairSheet.height / 1) (pairSheet.width / 1)) ∧
      1 < pairSheet.width ∧ 0 < pairSheet.height) ∧
    ((runCells 1 1 5 pairSheet [(0, 1), (0, 0)]).width =
        (transform 1 1 5 pairSheet).width ∧
      (runCells 1 1 5 pairSheet [(0, 1), (0, 0)]).height =
        (transform 1 1 5 pairSheet).height ∧
      (runCells 1 1 5 pairSheet [(0, 1), (0, 0)]).pixel 1 0 =
        (transform 1 1 5 pairSheet).pixel 1 0) :=
  ⟨⟨by decide, by decide, by decide, by decide, by decide⟩,
    cell_order_irrelevant 1 1 5 pairSheet (by decide) (by decide)
      [(0, 1), (0, 0)] (by decide) 1 0 (by decide) (by decide)⟩

/-- C8: the saved output image is in RGBA mode regardless of the source
image's channel mode, and a successful run writes exactly one image at the
configured output path. -/
theorem output_rgba_at_configured_path (src : Image) :
    (recortar src).mode = "RGBA" ∧
    script (.ok src) = .ok (output_path, recortar src) :=
  ⟨runCells_mode _ _ _ _ _, rfl⟩

/-- C9: if the run fails at any point before the final save (source
unreadable, decode failure, or a failure during grid processing), no write
occurs: the file system is unchanged at every path, so the output path
either still has no file or keeps its pre-existing stale one. -/
theorem no_partial_output_on_failure (fs : String → Option Image)
    (load : Except RunError Image) (proc : Image → Except RunError Image)
    (e : RunError) (h : scriptRun load proc = .error e) (p : String) :
    applyRun fs (scriptRun load proc) p = fs p := by
  rw [h]
  rfl

theorem no_partial_output_on_failure_witness :
    (scriptRun (.error .unreadable)
        (fun spritesheet => .ok (recortar spritesheet)) =
      .error RunError.unreadable) ∧
    applyRun (fun _ => none)
      (scriptRun (.error .unreadable)
        (fun spritesheet => .ok (recortar spritesheet))) output_path = none :=
  ⟨rfl, no_partial_output_on_failure (fun _ => none) (.error .unreadable)
    (fun spritesheet => .ok (recortar spritesheet)) RunError.unreadable rfl
    output_path⟩

/-- C10: when the source image is smaller than one frame in either
dimension the run still succeeds, saving an output of the source's full
dimensions in which every pixel is fully transparent. -/
theorem small_input_all_transparent (src : Image) (x y : Nat)
    (h : src.width < frame_width ∨ src.height < frame_height)
    (hx : x < src.width) (hy : y < src.height) :
    script (.ok src) = .ok (output_path, recortar src) ∧
    (recortar src).width = src.width ∧ (recortar src).height = src.height ∧
    (recortar src).pixel x y = transparent := by
  refine ⟨rfl, runCells_width _ _ _ _ _, runCells_height _ _ _ _ _, ?_⟩
  unfold recortar
  rw [transform_pixel frame_width frame_height y_offset src
    (by decide) (by decide) x y hx hy]
  rw [if_neg (by
    simp only [frame_width, frame_height] at h ⊢
    omega)]

theorem small_input_all_transparent_witness :
    ((tinySheet.width < frame_width ∨ tinySheet.height < frame_height) ∧
      0 < tinySheet.width ∧ 0 < tinySheet.height) ∧
    (script (.ok tinySheet) = .ok (output_path, recortar tinySheet) ∧
      (recortar tinySheet).width = tinySheet.width ∧
      (recortar tinySheet).height = tinySheet.height ∧
      (recortar tinySheet).pixel 0 0 = transparent) :=
  ⟨by decide, small_input_all_transparent tinySheet 0 0 (by decide)
    (by decide) (by decide)⟩
